import Mathlib

/-!
Verification of the mysql-tools data-access layer (src/index.ts).

The development shallowly embeds the pure computational core of the library:

* the JavaScript value universe that flows through `processValue` and
  `parseQueryStringValues` (`JSVal` below);
* `processValue` (value normalization, src/index.ts lines 29-42), including a
  faithful model of `JSON.stringify` on that value universe;
* `parseQueryStringValues` (placeholder reconciliation, lines 58-94), with the
  external statement parser `sql-query-identifier` modelled from the spec as a
  positional-placeholder counter;
* the connection-lifecycle skeleton of `query` (lines 97-109);
* the statement builders inside `edit` (lines 141-172) and `del` (lines
  174-185), i.e. the SQL strings and bind objects they produce per target row.

JavaScript objects are modelled as insertion-ordered association lists; a
transform callback, which in JavaScript receives the row snapshot by reference
and may mutate it, is modelled as a pair of functions: the value it returns and
the state its argument has after the call.
-/

/-- Universe of JavaScript values the library manipulates.  `vNum` covers
`typeof v === "number"` (the repository only moves numbers around, so they are
modelled as integers), `vBigInt` covers `typeof v === "bigint"`, `vObj` is a
plain object as an insertion-ordered association list, and `vOther` is any
remaining value (function, symbol, date, class instance, ...) carrying the
text that `String(value)` would produce for it. -/
inductive JSVal where
  | vUndefined
  | vNull
  | vBool (b : Bool)
  | vNum (n : Int)
  | vBigInt (n : Int)
  | vStr (s : String)
  | vArr (elems : List JSVal)
  | vObj (fields : List (String × JSVal))
  | vOther (text : String)

/-- Row snapshots and bind payload objects: a JavaScript plain object as an
insertion-ordered association list of string keys to values. -/
abbrev JSObj := List (String × JSVal)

/-- Test mirroring `Array.isArray(value)`. -/
def isArrayV : JSVal → Bool
  | .vArr _ => true
  | _ => false

/-- Test mirroring lodash `isPlainObject(value)` (true for object literals,
false for null, arrays, dates, functions and other exotic values). -/
def isPlainObjV : JSVal → Bool
  | .vObj _ => true
  | _ => false

/-- Test mirroring `[ 'bigint', 'boolean', 'number', 'string' ].includes(typeof value)`,
the bypassable / bindable scalar whitelist used at lines 34-36 and line 76. -/
def isBindableScalar : JSVal → Bool
  | .vBigInt _ => true
  | .vBool _ => true
  | .vNum _ => true
  | .vStr _ => true
  | _ => false

/-- A composite value in the sense of the spec: a sequence or keyed structure. -/
def isComposite : JSVal → Bool
  | .vArr _ => true
  | .vObj _ => true
  | _ => false

/-! ## Decimal rendering of numbers

JavaScript renders numbers in base 10 (`String(n)`, `JSON.stringify(n)`).
The digits are produced by a fuel-driven helper so that every definition in
this file evaluates inside the kernel. -/

/-- Little-endian decimal digits of `n`, with explicit fuel (the fuel `n`
itself always suffices). -/
def natDigitsAux : Nat → Nat → List Nat
  | 0, _ => []
  | _+1, 0 => []
  | f+1, n+1 => ((n+1) % 10) :: natDigitsAux f ((n+1) / 10)

/-- Little-endian decimal digits of `n` (empty for 0). -/
def natDigits (n : Nat) : List Nat := natDigitsAux n n

/-- Value of a little-endian decimal digit list. -/
def ofDigitsTen : List Nat → Nat
  | [] => 0
  | d :: l => d + 10 * ofDigitsTen l

/-- Character for one decimal digit. -/
def digitChar : Nat → Char
  | 0 => '0'
  | 1 => '1'
  | 2 => '2'
  | 3 => '3'
  | 4 => '4'
  | 5 => '5'
  | 6 => '6'
  | 7 => '7'
  | 8 => '8'
  | 9 => '9'
  | _ => '*'

/-- Numeric value of one decimal digit character. -/
def digitVal (c : Char) : Nat := c.toNat - 48

/-- Decimal digit test, used by the JSON number scanner. -/
def isDigitC (c : Char) : Bool := '0' ≤ c && c ≤ '9'

/-- Decimal rendering of a natural number, as JavaScript renders it. -/
def natRepr (n : Nat) : List Char :=
  if n = 0 then ['0'] else ((natDigits n).reverse).map digitChar

/-- Decimal rendering of an integer, as JavaScript renders it. -/
def intRepr (n : Int) : List Char :=
  if n < 0 then '-' :: natRepr n.natAbs else natRepr n.natAbs

/-! ## The String(value) conversion

The final branch of `processValue` (line 41) returns `String(value)`. -/

/-- Model of the JavaScript `String(value)` conversion on `JSVal`.
`String(null)` is the four character text `"null"`; arrays join their
elements with commas; plain objects render as `"[object Object]"`;
`vOther` carries its own conversion. -/
def jsStringOf : JSVal → String
  | .vUndefined => "undefined"
  | .vNull => "null"
  | .vBool true => "true"
  | .vBool false => "false"
  | .vNum n => ⟨intRepr n⟩
  | .vBigInt n => ⟨intRepr n⟩
  | .vStr s => s
  | .vArr _ => ""
  | .vObj _ => "[object Object]"
  | .vOther t => t

/-! ## JSON serialization (model of JSON.stringify)

`processValue` serializes composites with `JSON.stringify(value)`
(src/index.ts line 38).  The model below follows the ECMAScript
serialization of the values representable as `JSVal`:

* `undefined`, functions and symbols serialize to nothing (become `null`
  inside arrays, are dropped inside objects, and give an undefined result at
  top level); `vOther` is treated this way — host objects with a `toJSON`
  method are outside the model and never appear in any theorem;
* `bigint` values make `JSON.stringify` throw a `TypeError`, modelled as
  `Except.error`;
* strings are quoted with the standard escape table (lowercase hex for
  control characters). -/

/-- Hex digit character (lowercase), for control-character escapes. -/
def hexDigitChar : Nat → Char
  | 0 => '0'
  | 1 => '1'
  | 2 => '2'
  | 3 => '3'
  | 4 => '4'
  | 5 => '5'
  | 6 => '6'
  | 7 => '7'
  | 8 => '8'
  | 9 => '9'
  | 10 => 'a'
  | 11 => 'b'
  | 12 => 'c'
  | 13 => 'd'
  | 14 => 'e'
  | 15 => 'f'
  | _ => '*'

/-- JSON escape of one character, as produced by `JSON.stringify`. -/
def escChar (c : Char) : List Char :=
  if c = '"' then ['\\', '"']
  else if c = '\\' then ['\\', '\\']
  else if c = '\x08' then ['\\', 'b']
  else if c = '\x0c' then ['\\', 'f']
  else if c = '\n' then ['\\', 'n']
  else if c = '\r' then ['\\', 'r']
  else if c = '\t' then ['\\', 't']
  else if c.toNat < 32 then
    ['\\', 'u', '0', '0', hexDigitChar (c.toNat / 16), hexDigitChar (c.toNat % 16)]
  else [c]

/-- JSON escape of a character sequence. -/
def escString (cs : List Char) : List Char := (cs.map escChar).flatten

/-- JSON text of a string literal: quotes around the escaped body. -/
def quoteChars (s : String) : List Char := '"' :: (escString s.data ++ ['"'])

/-- Comma-separated concatenation of rendered pieces. -/
def joinComma : List (List Char) → List Char
  | [] => []
  | [x] => x
  | x :: y :: xs => x ++ ',' :: joinComma (y :: xs)

mutual

/-- Model of `JSON.stringify(value)` on `JSVal`.  `Except.error ()` models the
`TypeError` thrown on `bigint`; `Except.ok none` models an `undefined`
serialization result (undefined, function, symbol — and `vOther`, see the
section comment). -/
def serTop : JSVal → Except Unit (Option (List Char))
  | .vUndefined => .ok none
  | .vNull => .ok (some "null".data)
  | .vBool true => .ok (some "true".data)
  | .vBool false => .ok (some "false".data)
  | .vNum n => .ok (some (intRepr n))
  | .vBigInt _ => .error ()
  | .vStr s => .ok (some (quoteChars s))
  | .vArr xs =>
    match serElems xs with
    | .error e => .error e
    | .ok parts => .ok (some ('[' :: (joinComma parts ++ [']'])))
  | .vObj fs =>
    match serFields fs with
    | .error e => .error e
    | .ok parts => .ok (some ('\x7b' :: (joinComma parts ++ ['\x7d'])))
  | .vOther _ => .ok none

/-- Array elements: an element that serializes to nothing becomes `null`. -/
def serElems : List JSVal → Except Unit (List (List Char))
  | [] => .ok []
  | x :: xs =>
    match serTop x with
    | .error e => .error e
    | .ok none =>
      match serElems xs with
      | .error e => .error e
      | .ok tl => .ok ("null".data :: tl)
    | .ok (some s) =>
      match serElems xs with
      | .error e => .error e
      | .ok tl => .ok (s :: tl)

/-- Object members: a member whose value serializes to nothing is dropped. -/
def serFields : List (String × JSVal) → Except Unit (List (List Char))
  | [] => .ok []
  | (k, v) :: fs =>
    match serTop v with
    | .error e => .error e
    | .ok none => serFields fs
    | .ok (some s) =>
      match serFields fs with
      | .error e => .error e
      | .ok tl => .ok ((quoteChars k ++ ':' :: s) :: tl)

end

/-- String form of the `JSON.stringify` model. -/
def stringifyJSON (v : JSVal) : Except Unit (Option String) :=
  match serTop v with
  | .error e => .error e
  | .ok none => .ok none
  | .ok (some cs) => .ok (some ⟨cs⟩)

/-! ## JSON-safe values

A value is JSON-safe when it is built only from null, booleans, numbers,
strings, sequences and keyed structures (with duplicate-free keys, as the
keys of a JavaScript object always are).  On these values `JSON.stringify`
neither throws nor drops anything. -/

/-- Test whether `k` occurs as a key of the field list. -/
def containsKey (k : String) : List (String × JSVal) → Bool
  | [] => false
  | (k2, _) :: fs => k = k2 || containsKey k fs

/-- Keys of a field list are pairwise distinct. -/
def noDupKeys : List (String × JSVal) → Bool
  | [] => true
  | (k, _) :: fs => !containsKey k fs && noDupKeys fs

mutual

/-- JSON-safe predicate on values. -/
def jsonSafe : JSVal → Bool
  | .vNull => true
  | .vBool _ => true
  | .vNum _ => true
  | .vStr _ => true
  | .vArr xs => jsonSafeList xs
  | .vObj fs => noDupKeys fs && jsonSafeFields fs
  | _ => false

/-- JSON-safe predicate on element lists. -/
def jsonSafeList : List JSVal → Bool
  | [] => true
  | x :: xs => jsonSafe x && jsonSafeList xs

/-- JSON-safe predicate on field lists. -/
def jsonSafeFields : List (String × JSVal) → Bool
  | [] => true
  | (_, v) :: fs => jsonSafe v && jsonSafeFields fs

end

mutual

/-- Reference serializer: on JSON-safe values it is what `serTop` produces,
but by plain structural recursion, which is the shape the round-trip
induction wants. -/
def serC : JSVal → List Char
  | .vNull => "null".data
  | .vBool true => "true".data
  | .vBool false => "false".data
  | .vNum n => intRepr n
  | .vStr s => quoteChars s
  | .vArr xs => '[' :: (joinComma (serCList xs) ++ [']'])
  | .vObj fs => '\x7b' :: (joinComma (serCFields fs) ++ ['\x7d'])
  | _ => []

/-- Reference serializer on element lists. -/
def serCList : List JSVal → List (List Char)
  | [] => []
  | x :: xs => serC x :: serCList xs

/-- Reference serializer on field lists. -/
def serCFields : List (String × JSVal) → List (List Char)
  | [] => []
  | (k, v) :: fs => (quoteChars k ++ ':' :: serC v) :: serCFields fs

end

/-! ## processValue (src/index.ts lines 29-42)

The source, for reference:
```
const bypassableTypes = [ 'bigint', 'boolean', 'number', 'string' ]
if (value === undefined) return null
if (bypassableTypes.includes(typeof value)) return value
if (Array.isArray(value) || isPlainObject(value)) {
  if (options?.json === true) return JSON.stringify(value)
  return mapValues(value, processValue)
}
return String(value)
```
The recursive branch calls lodash `mapValues(value, processValue)`: the
iteratee receives the key as second argument, so the recursion always runs
with the json option off; and `mapValues` applied to an array produces a
plain object keyed by the decimal indices of the elements. -/

mutual

/-- The `mapValues(value, processValue)` branch of `processValue`: the json
option is off at every level, so no exception can occur and the function is
total. -/
def processValueNoJson : JSVal → JSVal
  | .vUndefined => .vNull
  | .vBool b => .vBool b
  | .vNum n => .vNum n
  | .vBigInt n => .vBigInt n
  | .vStr s => .vStr s
  | .vArr xs => .vObj (mapValuesIdx 0 xs)
  | .vObj fs => .vObj (mapValuesFields fs)
  | .vNull => .vStr "null"
  | .vOther t => .vStr t

/-- Lodash `mapValues` over an array: a plain object keyed by decimal indices. -/
def mapValuesIdx : Nat → List JSVal → List (String × JSVal)
  | _, [] => []
  | i, x :: xs => ((⟨natRepr i⟩ : String), processValueNoJson x) :: mapValuesIdx (i+1) xs

/-- Lodash `mapValues` over a plain object: same keys, mapped values. -/
def mapValuesFields : List (String × JSVal) → List (String × JSVal)
  | [] => []
  | (k, v) :: fs => (k, processValueNoJson v) :: mapValuesFields fs

end

/-- Model of `processValue(value, options)` (lines 29-42).  The `json`
argument is `options?.json === true`.  `Except.error ()` is the `TypeError`
that `JSON.stringify` throws on a `bigint` inside a composite. -/
def processValue (value : JSVal) (json : Bool) : Except Unit JSVal :=
  match value with
  | .vUndefined => .ok .vNull
  | .vBool b => .ok (.vBool b)
  | .vNum n => .ok (.vNum n)
  | .vBigInt n => .ok (.vBigInt n)
  | .vStr s => .ok (.vStr s)
  | .vArr xs =>
    if json then
      match stringifyJSON (.vArr xs) with
      | .error e => .error e
      | .ok none => .ok .vNull
      | .ok (some s) => .ok (.vStr s)
    else .ok (processValueNoJson (.vArr xs))
  | .vObj fs =>
    if json then
      match stringifyJSON (.vObj fs) with
      | .error e => .error e
      | .ok none => .ok .vNull
      | .ok (some s) => .ok (.vStr s)
    else .ok (processValueNoJson (.vObj fs))
  | .vNull => .ok (.vStr (jsStringOf .vNull))
  | .vOther t => .ok (.vStr (jsStringOf (.vOther t)))

/-! ## A JSON parser (model of JSON.parse)

Used to state the round-trip property of §8 of the spec.  The parser reads
the grammar that the serializer above emits (JSON with integer numbers and
no inter-token whitespace); fuel makes every function structurally
recursive, and any fuel of at least the length of the input suffices. -/

/-- Value of a hexadecimal digit character. -/
def hexVal (c : Char) : Option Nat :=
  if isDigitC c then some (c.toNat - 48)
  else if 'a' ≤ c && c ≤ 'f' then some (c.toNat - 87)
  else if 'A' ≤ c && c ≤ 'F' then some (c.toNat - 55)
  else none

/-- Combined value of four hexadecimal digit characters. -/
def hexVal4 (h1 h2 h3 h4 : Char) : Option Nat :=
  match hexVal h1, hexVal h2, hexVal h3, hexVal h4 with
  | some a, some b, some c, some d => some (((a * 16 + b) * 16 + c) * 16 + d)
  | _, _, _, _ => none

/-- String-body scanner: consumes up to the closing quote, decoding escapes;
`acc` holds the decoded characters in reverse. -/
def pStrAux (acc : List Char) : List Char → Option (String × List Char)
  | [] => none
  | c :: rest =>
    if c = '"' then some ((⟨acc.reverse⟩ : String), rest)
    else if c = '\\' then
      match rest with
      | [] => none
      | e :: r =>
        if e = '"' then pStrAux ('"' :: acc) r
        else if e = '\\' then pStrAux ('\\' :: acc) r
        else if e = '/' then pStrAux ('/' :: acc) r
        else if e = 'b' then pStrAux ('\x08' :: acc) r
        else if e = 'f' then pStrAux ('\x0c' :: acc) r
        else if e = 'n' then pStrAux ('\n' :: acc) r
        else if e = 'r' then pStrAux ('\r' :: acc) r
        else if e = 't' then pStrAux ('\t' :: acc) r
        else if e = 'u' then
          match r with
          | [] => none
          | [_] => none
          | [_, _] => none
          | [_, _, _] => none
          | h1 :: h2 :: h3 :: h4 :: r2 =>
            match hexVal4 h1 h2 h3 h4 with
            | some n => pStrAux (Char.ofNat n :: acc) r2
            | none => none
        else none
    else pStrAux (c :: acc) rest

/-- Digit-run scanner for a natural number literal. -/
def pNat (cs : List Char) : Option (Nat × List Char) :=
  let ds := cs.takeWhile isDigitC
  if ds.isEmpty then none
  else some (ds.foldl (fun a c => a * 10 + digitVal c) 0, cs.dropWhile isDigitC)

/-- Number scanner (integer grammar: optional minus then digits). -/
def pNum (cs : List Char) : Option (JSVal × List Char) :=
  match cs with
  | [] => none
  | c :: rest =>
    if c = '-' then
      match pNat rest with
      | some (n, r) => some (.vNum (-(n : Int)), r)
      | none => none
    else
      match pNat (c :: rest) with
      | some (n, r) => some (.vNum (n : Int), r)
      | none => none

mutual

/-- Fueled JSON value parser. -/
def pVal : Nat → List Char → Option (JSVal × List Char)
  | 0, _ => none
  | _+1, [] => none
  | f+1, c :: rest =>
    if c = 'n' then
      if rest.take 3 = ['u', 'l', 'l'] then some (.vNull, rest.drop 3) else none
    else if c = 't' then
      if rest.take 3 = ['r', 'u', 'e'] then some (.vBool true, rest.drop 3) else none
    else if c = 'f' then
      if rest.take 4 = ['a', 'l', 's', 'e'] then some (.vBool false, rest.drop 4) else none
    else if c = '"' then
      match pStrAux [] rest with
      | some (s, r) => some (.vStr s, r)
      | none => none
    else if c = '[' then
      if rest.headD ' ' = ']' then some (.vArr [], rest.tail)
      else
        match pElems f rest with
        | some (xs, r) => some (.vArr xs, r)
        | none => none
    else if c = '\x7b' then
      if rest.headD ' ' = '\x7d' then some (.vObj [], rest.tail)
      else
        match pFields f rest with
        | some (fs, r) => some (.vObj fs, r)
        | none => none
    else if c = '-' || isDigitC c then pNum (c :: rest)
    else none

/-- Fueled parser for the elements of a non-empty array, up to and past `]`. -/
def pElems : Nat → List Char → Option (List JSVal × List Char)
  | 0, _ => none
  | f+1, cs =>
    match pVal f cs with
    | none => none
    | some (v, r) =>
      match r with
      | ',' :: r2 =>
        match pElems f r2 with
        | some (vs, r3) => some (v :: vs, r3)
        | none => none
      | ']' :: r2 => some ([v], r2)
      | _ => none

/-- Fueled parser for the members of a non-empty object, up to and past the
closing brace. -/
def pFields : Nat → List Char → Option (List (String × JSVal) × List Char)
  | 0, _ => none
  | f+1, cs =>
    match cs with
    | '"' :: r =>
      (match pStrAux [] r with
       | none => none
       | some (k, r1) =>
         match r1 with
         | ':' :: r2 =>
           (match pVal f r2 with
            | none => none
            | some (v, r3) =>
              match r3 with
              | ',' :: r4 =>
                (match pFields f r4 with
                 | some (fs, r5) => some ((k, v) :: fs, r5)
                 | none => none)
              | '\x7d' :: r4 => some ([(k, v)], r4)
              | _ => none)
         | _ => none)
    | _ => none

end

/-- Model of `JSON.parse` on the grammar the serializer emits: parse with
ample fuel and demand that the whole input is consumed. -/
def jsonParse (s : String) : Option JSVal :=
  match pVal (s.data.length + 1) s.data with
  | some (v, []) => some v
  | _ => none

mutual

/-- Fuel a value needs from `pVal`: one unit per parser-to-parser call. -/
def fsize : JSVal → Nat
  | .vArr xs => 1 + fsizeList xs
  | .vObj fs => 1 + fsizeFields fs
  | _ => 1

/-- Fuel for an element list. -/
def fsizeList : List JSVal → Nat
  | [] => 0
  | x :: xs => 1 + fsize x + fsizeList xs

/-- Fuel for a field list. -/
def fsizeFields : List (String × JSVal) → Nat
  | [] => 0
  | (_, v) :: fs => 1 + fsize v + fsizeFields fs

end

/-! ## Placeholder detection (src/index.ts lines 63-64)

Named placeholders come from `queryString.match(/:[a-z]+/ig)`.  The
positional count comes from the external collaborator
`sql-query-identifier`, which is not part of this repository. -/

/-- ASCII letter test, the character class of the regex `/:[a-z]+/ig`
(case-insensitive). -/
def isAlphaC (c : Char) : Bool := ('a' ≤ c && c ≤ 'z') || ('A' ≤ c && c ≤ 'Z')

/-- Fueled scanner behind `scanNamed`; fuel bounded by the input length
always suffices, since every step consumes at least one character. -/
def scanNamedAux : Nat → List Char → List String
  | 0, _ => []
  | _+1, [] => []
  | f+1, c :: rest =>
    if c = ':' then
      (let letters := rest.takeWhile isAlphaC
       if letters.isEmpty then scanNamedAux f rest
       else ((⟨ ':' :: letters⟩ : String)) :: scanNamedAux f (rest.drop letters.length))
    else scanNamedAux f rest

/-- Model of `queryString.match(/:[a-z]+/ig) || []` (line 63): every
non-overlapping maximal match of a colon followed by one or more letters, in
order of appearance, duplicates retained, colon kept. -/
def scanNamed (cs : List Char) : List String := scanNamedAux cs.length cs

/-- Modelled from the spec: the external statement parser
(`sql-query-identifier`, consumed as an opaque collaborator, §1 and §6 of the
spec) "returns how many `?` placeholders the query contains" — the length of
the `parameters` list destructured at line 64. -/
def countPositional (s : String) : Nat := s.data.countP (fun c => c = '?')

/-! ## Objects as association lists -/

/-- Model of `Object.keys`. -/
def objKeys (o : JSObj) : List String := o.map Prod.fst

/-- Model of property access `o[k]`: the value at the first matching key,
`undefined` when the key is absent. -/
def objGet (o : JSObj) (k : String) : JSVal :=
  match o.find? (fun p => p.1 = k) with
  | some p => p.2
  | none => .vUndefined

/-- Model of the assignment `o[k] = v` on a plain object: an existing key
keeps its position and gets the new value, a new key is appended. -/
def setKey (o : JSObj) (k : String) (v : JSVal) : JSObj :=
  if k ∈ objKeys o then
    o.map (fun p => if p.1 = k then (k, v) else p)
  else o ++ [(k, v)]

/-- Model of `Object.fromEntries`: build an object by assigning each pair in
order (a later duplicate key overwrites the earlier value in place). -/
def fromEntries (l : List (String × JSVal)) : JSObj :=
  l.foldl (fun acc p => setKey acc p.1 p.2) []

/-- Model of `Object.assign(target, source)`: keys of `target` keep their
position and take the value from `source` when `source` also has the key;
keys only in `source` are appended in order. -/
def objAssign (target source : JSObj) : JSObj :=
  (target.map (fun p =>
    match source.find? (fun q => q.1 = p.1) with
    | some q => (p.1, q.2)
    | none => p))
  ++ source.filter (fun q => !(decide (q.1 ∈ objKeys target)))

/-- Model of lodash `mapKeys(t, (v, k) => oldk)` at line 163: same entries,
each key prefixed with `old`. -/
def mapKeysOld (o : JSObj) : JSObj := o.map (fun p => ("old" ++ p.1, p.2))

/-! ## parseQueryStringValues (src/index.ts lines 58-94) -/

/-- Errors `parseQueryStringValues` can throw.  `missingParameter` is the
`Error` of line 87, whose `cause` object (lines 66-71) carries the query
string, the placeholders reported by the statement parser, the named
placeholders and the original values.  `typeError` is the `TypeError` thrown
by `JSON.stringify` on a `bigint` inside a composite value. -/
inductive QueryError where
  | missingParameter (key : String) (queryString : String) (positionalCount : Nat)
      (namedPlaceholders : List String) (values : JSVal)
  | typeError

/-- Normalization of every element of a positional bind list:
`values.map(v => processValue(v, { json: true }))` (line 80). -/
def mapProcess : List JSVal → Except Unit (List JSVal)
  | [] => .ok []
  | x :: xs =>
    match processValue x true with
    | .error e => .error e
    | .ok v =>
      match mapProcess xs with
      | .error e => .error e
      | .ok tl => .ok (v :: tl)

/-- The named-placeholder branch body (lines 83-90): walk the detected
placeholders in order; a name absent from the payload binds `null` under
force and otherwise throws `missingParameter` with the cause context; a
present name binds its normalized value. -/
def bindNamed (queryString : String) (positionalCount : Nat) (allNamed : List String)
    (fs : JSObj) (force : Bool) : List String → Except QueryError (List (String × JSVal))
  | [] => .ok []
  | k :: rest =>
    let key := k.drop 1
    if ¬ (key ∈ objKeys fs) then
      (if force then
        match bindNamed queryString positionalCount allNamed fs force rest with
        | .error e => .error e
        | .ok tl => .ok ((key, .vNull) :: tl)
       else .error (.missingParameter key queryString positionalCount allNamed (.vObj fs)))
    else
      match processValue (objGet fs key) true with
      | .error _ => .error .typeError
      | .ok v =>
        match bindNamed queryString positionalCount allNamed fs force rest with
        | .error e => .error e
        | .ok tl => .ok ((key, v) :: tl)

/-- Elements of an array value (exact under the `isArrayV` guard). -/
def asArr : JSVal → List JSVal
  | .vArr xs => xs
  | _ => []

/-- Fields of a plain-object value (exact under the `isPlainObjV` guard). -/
def asObj : JSVal → JSObj
  | .vObj fs => fs
  | _ => []

/-- Model of `parseQueryStringValues(queryString, values, options)`
(lines 58-94).  The `force` argument is `options?.force === true`.  Return
value `JSVal`: the function returns `null`, an array, an object — or, on the
single-positional-placeholder branch for a non-bindable value, the bare
result of `processValue` (line 76). -/
def parseQueryStringValues (queryString : String) (values : JSVal) (force : Bool) :
    Except QueryError JSVal :=
  match values with
  | .vNull => .ok .vNull
  | .vUndefined => .ok .vNull
  | _ =>
    let namedPlaceholders := scanNamed queryString.data
    let placeholders := countPositional queryString
    if placeholders = 1 then
      (if isArrayV values then
        match processValue ((asArr values).headD .vUndefined) true with
        | .error _ => .error .typeError
        | .ok v => .ok (.vArr [v])
       else if !(isBindableScalar values) then
        match processValue values true with
        | .error _ => .error .typeError
        | .ok v => .ok v
       else .ok (.vArr [values]))
    else if 0 < placeholders && isArrayV values then
      match mapProcess (asArr values) with
      | .error _ => .error .typeError
      | .ok ys => .ok (.vArr ys)
    else if !namedPlaceholders.isEmpty && isPlainObjV values then
      match bindNamed queryString placeholders namedPlaceholders (asObj values) force
          namedPlaceholders with
      | .error e => .error e
      | .ok entries => .ok (.vObj (fromEntries entries))
    else .ok .vNull

/-! ## Connection lifecycle of query (src/index.ts lines 97-109)

The source, for reference:
```
const conn = connection ? connection : await pool.getConnection()
const parsedValues = parseQueryStringValues(string, values)
const response = await conn.execute(string, parsedValues)
if (!connection) {
  if (typeof conn.release === 'function') conn.release()
  else conn.destroy()
}
return response
```
The database is an external collaborator, so the outcome of
`conn.execute` is a parameter.  When the awaited execute rejects, the
function aborts at line 101 and the release block (lines 103-106) never
runs. -/

/-- Observable lifecycle outcome of one `query` call. -/
structure QueryTrace where
  succeeded : Bool
  released : Bool
  destroyed : Bool

/-- Connection lifecycle of `query`: `connectionSupplied` says whether the
caller passed a connection, `releaseSupported` whether the handle has a
`release` function, `execSucceeds` whether the awaited execute resolves. -/
def queryLifecycle (connectionSupplied releaseSupported execSucceeds : Bool) : QueryTrace :=
  if execSucceeds then
    (if !connectionSupplied then
      (if releaseSupported then ⟨true, true, false⟩ else ⟨true, false, true⟩)
     else ⟨true, false, false⟩)
  else ⟨false, false, false⟩

/-! ## Statement builders of edit and del (src/index.ts lines 141-185)

The statement construction is pure: given the column metadata returned by
the driver and one target row snapshot, it produces the SQL text and the
bind object that `edit`/`del` pass to `query`.  A JavaScript transform
receives the snapshot by reference and may mutate it, so it is modelled as
the pair `transformRet` (the value it returns) and `transformPost` (the
state of its argument after the call); a transform that does not mutate its
argument has `transformPost t = t`. -/

/-- Column metadata: name and driver flag bitmask (bit 2 = primary key,
bit 4 = unique index). -/
structure FieldMeta where
  name : String
  flags : Nat

/-- Line 144: `fields.find(f => (f.flags & 2) !== 0)?.name`. -/
def primaryKeyOf (fields : List FieldMeta) : Option String :=
  (fields.find? (fun f => f.flags.land 2 != 0)).map FieldMeta.name

/-- Line 146: names of the fields whose flags have neither the primary-key
bit (2) nor the unique-index bit (4). -/
def editableColumnsOf (fields : List FieldMeta) : List String :=
  (fields.filter (fun f => f.flags.land 2 + f.flags.land 4 == 0)).map FieldMeta.name

/-- Line 159: the identity columns of one UPDATE — the primary key when the
metadata has one, otherwise every key the row snapshot had before the
transform ran. -/
def editWhereCols (fields : List FieldMeta) (oldKeys : List String) : List String :=
  match primaryKeyOf fields with
  | some pk => [pk]
  | none => oldKeys

/-- SET-clause keys of one UPDATE (line 153): the keys of the transform
result that survive the editable-columns filter. -/
def editSetCols (fields : List FieldMeta) (newKeys : List String) : List String :=
  newKeys.filter (fun k => decide (k ∈ editableColumnsOf fields))

/-- Rendering of one `col = :col` pair. -/
def sqlAssignPair (k : String) : String := "`" ++ k ++ "` = :" ++ k

/-- Rendering of one `col = :oldcol` pair. -/
def sqlOldPair (k : String) : String := "`" ++ k ++ "` = :old" ++ k

/-- One SQL statement with its bind object. -/
structure Statement where
  queryString : String
  values : JSObj

/-- Line 155 without the `fromEntries` wrapper: normalize
`updatedData[k]` for each editable key. -/
def processEntries (updatedData : JSObj) : List String → Except Unit (List (String × JSVal))
  | [] => .ok []
  | k :: ks =>
    match processValue (objGet updatedData k) true with
    | .error e => .error e
    | .ok v =>
      match processEntries updatedData ks with
      | .error e => .error e
      | .ok tl => .ok ((k, v) :: tl)

/-- Model of the UPDATE construction for one target row (lines 148-166).
Mirrors the source order: `oldKeys` is read from the snapshot before the
transform runs; the selector (line 163) is read from the snapshot object
after the transform call, hence from `transformPost t`. -/
def editStatement (table : String) (fields : List FieldMeta)
    (transformRet transformPost : JSObj → JSObj) (t : JSObj) : Except Unit Statement :=
  let oldKeys := objKeys t
  let updatedData := transformRet t
  let newKeys := objKeys updatedData
  let editableKeys := editSetCols fields newKeys
  match processEntries updatedData editableKeys with
  | .error e => .error e
  | .ok entries =>
    let processedItem := fromEntries entries
    let valuesString := String.intercalate ", " (editableKeys.map sqlAssignPair)
    let deleteConditions := (editWhereCols fields oldKeys).map sqlOldPair
    let queryString := "UPDATE `" ++ table ++ "` SET " ++ valuesString ++ " WHERE "
      ++ String.intercalate " AND " deleteConditions
    let selector := mapKeysOld (transformPost t)
    .ok ⟨queryString, objAssign processedItem selector⟩

/-- Model of the UPDATE construction for every target row (line 148). -/
def editStatements (table : String) (fields : List FieldMeta)
    (transformRet transformPost : JSObj → JSObj) (targets : List JSObj) :
    Except Unit (List Statement) :=
  match targets with
  | [] => .ok []
  | t :: ts =>
    match editStatement table fields transformRet transformPost t with
    | .error e => .error e
    | .ok st =>
      match editStatements table fields transformRet transformPost ts with
      | .error e => .error e
      | .ok tl => .ok (st :: tl)

/-- Model of the DELETE construction for one target row (lines 176-179):
the WHERE clause enumerates every key of the row snapshot, and the snapshot
itself is the bind object. -/
def delStatement (table : String) (t : JSObj) : Statement :=
  let keys := objKeys t
  let deleteConditions := keys.map sqlAssignPair
  ⟨"DELETE FROM `" ++ table ++ "` WHERE " ++ String.intercalate " AND " deleteConditions, t⟩

/-- Model of the DELETE construction for every target row (line 176). -/
def delStatements (table : String) (targets : List JSObj) : List Statement :=
  targets.map (delStatement table)

/-- Side condition for number parsing: the text does not begin with a digit. -/
def nonDigitHead (cs : List Char) : Prop :=
  ∀ c, cs.head? = some c → isDigitC c = false

/-! # Theorems

First the arithmetic of decimal rendering, then the JSON round trip, then
the claims about the repository. -/

theorem ofDigitsTen_natDigitsAux (f n : Nat) (h : n ≤ f) :
    ofDigitsTen (natDigitsAux f n) = n := by
  induction f generalizing n with
  | zero => interval_cases n; simp [natDigitsAux, ofDigitsTen]
  | succ f ih =>
    match n with
    | 0 => simp [natDigitsAux, ofDigitsTen]
    | n+1 =>
      have hd : (n+1) / 10 ≤ f := by omega
      simp only [natDigitsAux, ofDigitsTen, ih _ hd]
      omega

theorem ofDigitsTen_natDigits (n : Nat) : ofDigitsTen (natDigits n) = n :=
  ofDigitsTen_natDigitsAux n n (Nat.le_refl n)

theorem natDigitsAux_lt (f n : Nat) : ∀ d ∈ natDigitsAux f n, d < 10 := by
  induction f generalizing n with
  | zero => simp [natDigitsAux]
  | succ f ih =>
    match n with
    | 0 => simp [natDigitsAux]
    | n+1 =>
      intro d hd
      simp only [natDigitsAux, List.mem_cons] at hd
      rcases hd with h | h
      · omega
      · exact ih _ d h

theorem natDigits_lt (n : Nat) : ∀ d ∈ natDigits n, d < 10 :=
  natDigitsAux_lt n n

theorem digitVal_digitChar : ∀ d, d < 10 → digitVal (digitChar d) = d := by decide

theorem isDigitC_digitChar : ∀ d, d < 10 → isDigitC (digitChar d) = true := by decide

theorem natRepr_digits (n : Nat) : ∀ c ∈ natRepr n, isDigitC c = true := by
  intro c hc
  unfold natRepr at hc
  by_cases h : n = 0
  · simp [h] at hc
    simp [hc, isDigitC]
  · simp only [h, if_false, List.mem_map, List.mem_reverse] at hc
    obtain ⟨d, hd, rfl⟩ := hc
    exact isDigitC_digitChar d (natDigits_lt n d hd)

theorem natRepr_ne_nil (n : Nat) : natRepr n ≠ [] := by
  unfold natRepr
  by_cases h : n = 0
  · simp [h]
  · simp only [h, if_false]
    intro hmap
    have hnil : natDigits n = [] := by
      rcases hd : natDigits n with _ | ⟨d, l⟩
      · rfl
      · rw [hd] at hmap
        simp at hmap
    have hval := ofDigitsTen_natDigits n
    rw [hnil] at hval
    simp [ofDigitsTen] at hval
    exact h hval.symm

theorem foldl_digitChars (L : List Nat) (acc : Nat) (h : ∀ d ∈ L, d < 10) :
    (L.reverse.map digitChar).foldl (fun a c => a * 10 + digitVal c) acc
      = acc * 10 ^ L.length + ofDigitsTen L := by
  induction L generalizing acc with
  | nil => simp [ofDigitsTen]
  | cons d L ih =>
    have hd : d < 10 := h d (by simp)
    have hL : ∀ x ∈ L, x < 10 := fun x hx => h x (by simp [hx])
    simp only [List.reverse_cons, List.map_append, List.foldl_append, List.map_cons,
      List.map_nil, List.foldl_cons, List.foldl_nil, ih acc hL, ofDigitsTen,
      digitVal_digitChar d hd, List.length_cons]
    ring

theorem takeWhile_append_all {α : Type} (p : α → Bool) (l r : List α)
    (h1 : ∀ a ∈ l, p a = true) (h2 : ∀ a, r.head? = some a → p a = false) :
    (l ++ r).takeWhile p = l ∧ (l ++ r).dropWhile p = r := by
  induction l with
  | nil =>
    simp only [List.nil_append]
    cases r with
    | nil => simp
    | cons a r' =>
      have := h2 a (by simp)
      simp [List.takeWhile, List.dropWhile, this]
  | cons a l ih =>
    have ha : p a = true := h1 a (by simp)
    have hl : ∀ x ∈ l, p x = true := fun x hx => h1 x (by simp [hx])
    obtain ⟨t1, t2⟩ := ih hl
    simp [List.takeWhile, List.dropWhile, ha, t1, t2]

theorem pNat_natRepr (n : Nat) (rest : List Char) (h : nonDigitHead rest) :
    pNat (natRepr n ++ rest) = some (n, rest) := by
  obtain ⟨t1, t2⟩ := takeWhile_append_all isDigitC (natRepr n) rest (natRepr_digits n)
    (fun c hc => h c hc)
  unfold pNat
  simp only [t1, t2]
  have hne : ¬ (natRepr n).isEmpty := by
    cases hr : natRepr n with
    | nil => exact absurd hr (natRepr_ne_nil n)
    | cons c t => simp
  simp only [hne, if_false]
  unfold natRepr
  by_cases h0 : n = 0
  · simp [h0, digitVal]
  · simp only [h0, if_false]
    rw [foldl_digitChars (natDigits n) 0 (natDigits_lt n)]
    simp [ofDigitsTen_natDigits n]

theorem isDigitC_ne_cases (c : Char) (h : isDigitC c = true) :
    c ≠ '-' ∧ c ≠ 'n' ∧ c ≠ 't' ∧ c ≠ 'f' ∧ c ≠ '"' ∧ c ≠ '[' ∧ c ≠ '\x7b'
      ∧ c ≠ ']' ∧ c ≠ '\x7d' ∧ c ≠ ',' ∧ c ≠ ':' := by
  refine ⟨?_, ?_, ?_, ?_, ?_, ?_, ?_, ?_, ?_, ?_, ?_⟩ <;>
    (intro he; subst he; simp [isDigitC] at h)

theorem pNum_intRepr (m : Int) (rest : List Char) (h : nonDigitHead rest) :
    pNum (intRepr m ++ rest) = some (.vNum m, rest) := by
  unfold intRepr
  by_cases hm : m < 0
  · simp only [hm, if_true, List.cons_append]
    unfold pNum
    have habs : -(m.natAbs : Int) = m := by omega
    simp only [if_pos rfl, pNat_natRepr m.natAbs rest h]
    rw [habs]
    simp
  · simp only [hm, if_false]
    cases hr : natRepr m.natAbs with
    | nil => exact absurd hr (natRepr_ne_nil _)
    | cons c t =>
      have hc : isDigitC c = true := natRepr_digits m.natAbs c (by simp [hr])
      have hcm : c ≠ '-' := (isDigitC_ne_cases c hc).1
      have habs : (m.natAbs : Int) = m := by omega
      simp only [List.cons_append]
      unfold pNum
      simp only [hcm, if_false]
      rw [← List.cons_append, ← hr, pNat_natRepr m.natAbs rest h]
      simp [habs]

theorem hexVal_hexDigitChar : ∀ m, m < 16 → hexVal (hexDigitChar m) = some m := by decide

theorem hexVal4_ctl (c : Char) (h8 : c.toNat < 32) :
    hexVal4 '0' '0' (hexDigitChar (c.toNat / 16)) (hexDigitChar (c.toNat % 16))
      = some c.toNat := by
  unfold hexVal4
  rw [show hexVal '0' = some 0 from by decide,
    hexVal_hexDigitChar (c.toNat / 16) (by omega),
    hexVal_hexDigitChar (c.toNat % 16) (by omega)]
  exact congrArg some (by omega)

theorem pStrAux_esc (l : List Char) (rest : List Char) : ∀ acc,
    pStrAux acc (escString l ++ '"' :: rest)
      = some (((⟨acc.reverse ++ l⟩ : String)), rest) := by
  induction l with
  | nil =>
    intro acc
    show pStrAux acc ('"' :: rest) = _
    rw [ pStrAux.eq_def]
    simp
  | cons c l ih =>
    intro acc
    have hstep : escString (c :: l) = escChar c ++ escString l := by simp [escString]
    rw [hstep, List.append_assoc]
    by_cases h1 : c = '"'
    · subst h1
      rw [show escChar '"' = ['\\', '"'] from rfl]
      simp only [List.cons_append, List.nil_append]
      rw [ pStrAux.eq_def]
      simp [ih]
    · by_cases h2 : c = '\\'
      · subst h2
        rw [show escChar '\\' = ['\\', '\\'] from rfl]
        simp only [List.cons_append, List.nil_append]
        rw [ pStrAux.eq_def]
        simp [ih]
      · by_cases h3 : c = '\x08'
        · subst h3
          rw [show escChar '\x08' = ['\\', 'b'] from rfl]
          simp only [List.cons_append, List.nil_append]
          rw [ pStrAux.eq_def]
          simp [ih]
        · by_cases h4 : c = '\x0c'
          · subst h4
            rw [show escChar '\x0c' = ['\\', 'f'] from rfl]
            simp only [List.cons_append, List.nil_append]
            rw [ pStrAux.eq_def]
            simp [ih]
          · by_cases h5 : c = '\n'
            · subst h5
              rw [show escChar '\n' = ['\\', 'n'] from rfl]
              simp only [List.cons_append, List.nil_append]
              rw [ pStrAux.eq_def]
              simp [ih]
            · by_cases h6 : c = '\r'
              · subst h6
                rw [show escChar '\r' = ['\\', 'r'] from rfl]
                simp only [List.cons_append, List.nil_append]
                rw [ pStrAux.eq_def]
                simp [ih]
              · by_cases h7 : c = '\t'
                · subst h7
                  rw [show escChar '\t' = ['\\', 't'] from rfl]
                  simp only [List.cons_append, List.nil_append]
                  rw [ pStrAux.eq_def]
                  simp [ih]
                · by_cases h8 : c.toNat < 32
                  · have he : escChar c
                        = ['\\', 'u', '0', '0', hexDigitChar (c.toNat / 16),
                           hexDigitChar (c.toNat % 16)] := by
                      simp [escChar, h1, h2, h3, h4, h5, h6, h7, h8]
                    have hc4 := hexVal4_ctl c h8
                    rw [he]
                    simp only [List.cons_append, List.nil_append]
                    rw [ pStrAux.eq_def]
                    simp [hc4, Char.ofNat_toNat, ih]
                  · have he : escChar c = [c] := by
                      simp [escChar, h1, h2, h3, h4, h5, h6, h7, h8]
                    rw [he]
                    simp only [List.cons_append, List.nil_append]
                    rw [ pStrAux.eq_def]
                    simp [h1, h2, ih]

theorem nonDigitHead_nil : nonDigitHead [] := by
  intro c hc
  simp at hc

theorem nonDigitHead_cons (c : Char) (t : List Char) (h : isDigitC c = false) :
    nonDigitHead (c :: t) := by
  intro c2 hc2
  simp at hc2
  exact hc2 ▸ h

theorem intRepr_head (m : Int) :
    ∃ c t, intRepr m = c :: t ∧ (c = '-' ∨ isDigitC c = true) := by
  unfold intRepr
  by_cases hm : m < 0
  · exact ⟨ '-', natRepr m.natAbs, by simp [hm], Or.inl rfl⟩
  · cases hr : natRepr m.natAbs with
    | nil => exact absurd hr (natRepr_ne_nil _)
    | cons c t =>
      exact ⟨c, t, by simp [hm], Or.inr (natRepr_digits m.natAbs c (by simp [hr]))⟩

theorem serC_head (v : JSVal) (h : jsonSafe v = true) :
    ∃ c t, serC v = c :: t ∧ c ≠ ']' ∧ c ≠ '\x7d' := by
  cases v with
  | vNull => exact ⟨ 'n', _, rfl, by decide, by decide⟩
  | vBool b =>
    cases b with
    | true => exact ⟨ 't', _, rfl, by decide, by decide⟩
    | false => exact ⟨ 'f', _, rfl, by decide, by decide⟩
  | vNum m =>
    obtain ⟨c, t, he, hc⟩ := intRepr_head m
    refine ⟨c, t, by rw [serC, he], ?_, ?_⟩
    · rcases hc with rfl | hd
      · decide
      · exact (isDigitC_ne_cases c hd).2.2.2.2.2.2.2.1
    · rcases hc with rfl | hd
      · decide
      · exact (isDigitC_ne_cases c hd).2.2.2.2.2.2.2.2.1
  | vStr s => exact ⟨ '"', _, rfl, by decide, by decide⟩
  | vArr xs => exact ⟨ '[', _, rfl, by decide, by decide⟩
  | vObj fs => exact ⟨ '\x7b', _, rfl, by decide, by decide⟩
  | vUndefined => simp [jsonSafe] at h
  | vBigInt m => simp [jsonSafe] at h
  | vOther t => simp [jsonSafe] at h

theorem fsize_pos (v : JSVal) : 1 ≤ fsize v := by
  cases v <;> simp [fsize]

theorem ser_agree_bound (k : Nat) :
    (∀ v, fsize v ≤ k → jsonSafe v = true → serTop v = .ok (some (serC v)))
    ∧ (∀ xs, fsizeList xs ≤ k → jsonSafeList xs = true → serElems xs = .ok (serCList xs))
    ∧ (∀ fs, fsizeFields fs ≤ k → jsonSafeFields fs = true
        → serFields fs = .ok (serCFields fs)) := by
  induction k with
  | zero =>
    refine ⟨fun v hv _ => absurd hv (by have := fsize_pos v; omega), fun xs hxs _ => ?_,
      fun fs hfs _ => ?_⟩
    · cases xs with
      | nil => rfl
      | cons x xs => simp [fsizeList] at hxs
    · cases fs with
      | nil => rfl
      | cons f fs =>
        obtain ⟨kk, vv⟩ := f
        simp [fsizeFields] at hfs
  | succ k ih =>
    obtain ⟨ihv, ihl, ihf⟩ := ih
    refine ⟨fun v hv hs => ?_, fun xs hxs hs => ?_, fun fs hfs hs => ?_⟩
    · cases v with
      | vNull => rfl
      | vBool b => cases b <;> rfl
      | vNum m => rfl
      | vStr s => rfl
      | vArr xs =>
        have h1 : fsizeList xs ≤ k := by simp [fsize] at hv; omega
        have h2 : jsonSafeList xs = true := by simpa [jsonSafe] using hs
        rw [serTop, ihl xs h1 h2, serC]
      | vObj fs =>
        have h1 : fsizeFields fs ≤ k := by simp [fsize] at hv; omega
        have h2 : jsonSafeFields fs = true := by
          simp [jsonSafe] at hs
          exact hs.2
        rw [serTop, ihf fs h1 h2, serC]
      | vUndefined => simp [jsonSafe] at hs
      | vBigInt m => simp [jsonSafe] at hs
      | vOther t => simp [jsonSafe] at hs
    · cases xs with
      | nil => rfl
      | cons x xs =>
        have h1 : fsize x ≤ k ∧ fsizeList xs ≤ k := by simp [fsizeList] at hxs; omega
        have h2 : jsonSafe x = true ∧ jsonSafeList xs = true := by
          simpa [jsonSafeList, Bool.and_eq_true] using hs
        rw [serElems, ihv x h1.1 h2.1, ihl xs h1.2 h2.2, serCList]
    · cases fs with
      | nil => rfl
      | cons f fs =>
        obtain ⟨kk, vv⟩ := f
        have h1 : fsize vv ≤ k ∧ fsizeFields fs ≤ k := by simp [fsizeFields] at hfs; omega
        have h2 : jsonSafe vv = true ∧ jsonSafeFields fs = true := by
          simpa [jsonSafeFields, Bool.and_eq_true] using hs
        rw [serFields, ihv vv h1.1 h2.1, ihf fs h1.2 h2.2, serCFields]

theorem fsize_le_bound (k : Nat) :
    (∀ v, fsize v ≤ k → jsonSafe v = true → fsize v ≤ (serC v).length)
    ∧ (∀ xs, fsizeList xs ≤ k → jsonSafeList xs = true → xs ≠ []
        → fsizeList xs ≤ (joinComma (serCList xs)).length + 1)
    ∧ (∀ fs, fsizeFields fs ≤ k → jsonSafeFields fs = true → fs ≠ []
        → fsizeFields fs ≤ (joinComma (serCFields fs)).length + 1) := by
  induction k with
  | zero =>
    refine ⟨fun v hv _ => absurd hv (by have := fsize_pos v; omega),
      fun xs hxs _ hne => ?_, fun fs hfs _ hne => ?_⟩
    · cases xs with
      | nil => exact absurd rfl hne
      | cons x xs => simp [fsizeList] at hxs
    · cases fs with
      | nil => exact absurd rfl hne
      | cons f fs =>
        obtain ⟨kk, vv⟩ := f
        simp [fsizeFields] at hfs
  | succ k ih =>
    obtain ⟨ihv, ihl, ihf⟩ := ih
    refine ⟨fun v hv hs => ?_, fun xs hxs hs hne => ?_, fun fs hfs hs hne => ?_⟩
    · cases v with
      | vNull => simp [fsize, serC]
      | vBool b => cases b <;> simp [fsize, serC]
      | vNum m =>
        have h1 : intRepr m ≠ [] := by
          unfold intRepr
          by_cases hm : m < 0
          · simp [hm]
          · simp [hm, natRepr_ne_nil]
        cases he : intRepr m with
        | nil => exact absurd he h1
        | cons c t => simp [fsize, serC, he]
      | vStr s => simp [fsize, serC, quoteChars]
      | vArr xs =>
        cases xs with
        | nil => simp [fsize, fsizeList, serC, serCList, joinComma]
        | cons x xs =>
          have h1 : fsizeList (x :: xs) ≤ k := by simp [fsize] at hv; omega
          have h2 : jsonSafeList (x :: xs) = true := by simpa [jsonSafe] using hs
          have := ihl (x :: xs) h1 h2 (by simp)
          simp only [fsize, serC]
          simp only [List.length_cons, List.length_append]
          simp at this ⊢
          omega
      | vObj fs =>
        cases fs with
        | nil => simp [fsize, fsizeFields, serC, serCFields, joinComma]
        | cons f fs =>
          have h1 : fsizeFields (f :: fs) ≤ k := by simp [fsize] at hv; omega
          have h2 : jsonSafeFields (f :: fs) = true := by
            simp [jsonSafe] at hs
            exact hs.2
          have := ihf (f :: fs) h1 h2 (by simp)
          simp only [fsize, serC]
          simp only [List.length_cons, List.length_append]
          simp at this ⊢
          omega
      | vUndefined => simp [jsonSafe] at hs
      | vBigInt m => simp [jsonSafe] at hs
      | vOther t => simp [jsonSafe] at hs
    · cases xs with
      | nil => exact absurd rfl hne
      | cons x xs =>
        have hx : fsize x ≤ k ∧ fsizeList xs ≤ k := by simp [fsizeList] at hxs; omega
        have hsx : jsonSafe x = true ∧ jsonSafeList xs = true := by
          simpa [jsonSafeList, Bool.and_eq_true] using hs
        have hv := ihv x hx.1 hsx.1
        cases xs with
        | nil =>
          simp only [serCList, joinComma, fsizeList]
          omega
        | cons y ys =>
          have hrest := ihl (y :: ys) hx.2 hsx.2 (by simp)
          simp only [serCList, joinComma, fsizeList, List.length_append,
            List.length_cons] at *
          omega
    · cases fs with
      | nil => exact absurd rfl hne
      | cons f fs =>
        obtain ⟨kk, vv⟩ := f
        have hx : fsize vv ≤ k ∧ fsizeFields fs ≤ k := by simp [fsizeFields] at hfs; omega
        have hsx : jsonSafe vv = true ∧ jsonSafeFields fs = true := by
          simpa [jsonSafeFields, Bool.and_eq_true] using hs
        have hv := ihv vv hx.1 hsx.1
        cases fs with
        | nil =>
          simp only [serCFields, joinComma, fsizeFields, List.length_append,
            List.length_cons]
          omega
        | cons g gs =>
          obtain ⟨kk2, vv2⟩ := g
          have hrest := ihf ((kk2, vv2) :: gs) hx.2 hsx.2 (by simp)
          simp only [serCFields, joinComma, fsizeFields, List.length_append,
            List.length_cons] at *
          omega

theorem fsize_le_serC (v : JSVal) (h : jsonSafe v = true) : fsize v ≤ (serC v).length :=
  (fsize_le_bound (fsize v)).1 v (Nat.le_refl _) h

theorem fsizeList_pos (x : JSVal) (xs : List JSVal) : 1 ≤ fsizeList (x :: xs) := by
  simp [fsizeList]
  omega

theorem parse_ser_bound (k : Nat) :
    (∀ v rest, jsonSafe v = true → fsize v ≤ k → nonDigitHead rest →
       pVal k (serC v ++ rest) = some (v, rest))
    ∧ (∀ xs rest, jsonSafeList xs = true → xs ≠ [] → fsizeList xs ≤ k → nonDigitHead rest →
       pElems k (joinComma (serCList xs) ++ ']' :: rest) = some (xs, rest))
    ∧ (∀ fs rest, jsonSafeFields fs = true → fs ≠ [] → fsizeFields fs ≤ k →
       nonDigitHead rest →
       pFields k (joinComma (serCFields fs) ++ '\x7d' :: rest) = some (fs, rest)) := by
  induction k with
  | zero =>
    refine ⟨fun v rest _ hv _ => absurd hv (by have := fsize_pos v; omega),
      fun xs rest _ hne hxs _ => ?_, fun fs rest _ hne hfs _ => ?_⟩
    · cases xs with
      | nil => exact absurd rfl hne
      | cons x xs => exact absurd hxs (by have := fsizeList_pos x xs; omega)
    · cases fs with
      | nil => exact absurd rfl hne
      | cons f fs =>
        obtain ⟨kk, vv⟩ := f
        simp [fsizeFields] at hfs
  | succ k ih =>
    obtain ⟨ihv, ihl, ihf⟩ := ih
    refine ⟨fun v rest hs hv hnd => ?_, fun xs rest hs hne hxs hnd => ?_,
      fun fs rest hs hne hfs hnd => ?_⟩
    · cases v with
      | vNull =>
        show pVal (k+1) ('n' :: 'u' :: 'l' :: 'l' :: rest) = some (.vNull, rest)
        rw [ pVal.eq_def]
        simp
      | vBool b =>
        cases b with
        | true =>
          show pVal (k+1) ('t' :: 'r' :: 'u' :: 'e' :: rest) = some (.vBool true, rest)
          rw [ pVal.eq_def]
          simp
        | false =>
          show pVal (k+1) ('f' :: 'a' :: 'l' :: 's' :: 'e' :: rest)
            = some (.vBool false, rest)
          rw [ pVal.eq_def]
          simp
      | vNum m =>
        obtain ⟨c, t, he, hc⟩ := intRepr_head m
        rw [show serC (.vNum m) = intRepr m from rfl, he, List.cons_append, pVal.eq_def]
        rcases hc with rfl | hd
        · simp only [if_neg (by decide : ¬ ('-' : Char) = 'n'),
            if_neg (by decide : ¬ ('-' : Char) = 't'),
            if_neg (by decide : ¬ ('-' : Char) = 'f'),
            if_neg (by decide : ¬ ('-' : Char) = '"'),
            if_neg (by decide : ¬ ('-' : Char) = '['),
            if_neg (by decide : ¬ ('-' : Char) = '\x7b'),
            if_pos (by decide : (('-' : Char) = '-' || isDigitC '-') = true)]
          rw [← List.cons_append, ← he]
          exact pNum_intRepr m rest hnd
        · obtain ⟨hd1, hd2, hd3, hd4, hd5, hd6, hd7, hd8, hd9, hd10, hd11⟩ :=
            isDigitC_ne_cases c hd
          simp only [if_neg hd2, if_neg hd3, if_neg hd4, if_neg hd5, if_neg hd6,
            if_neg hd7, if_pos (by simp [hd] : (c = '-' || isDigitC c) = true)]
          rw [← List.cons_append, ← he]
          exact pNum_intRepr m rest hnd
      | vStr s =>
        rw [show serC (.vStr s) ++ rest
            = '"' :: (escString s.data ++ '"' :: rest) from by
          simp [serC, quoteChars]]
        rw [ pVal.eq_def]
        have hps := pStrAux_esc s.data rest []
        simp at hps
        simp [hps]
      | vArr xs =>
        cases xs with
        | nil =>
          show pVal (k+1) ('[' :: ']' :: rest) = some (.vArr [], rest)
          rw [ pVal.eq_def]
          simp
        | cons x xs =>
          have hsx : jsonSafe x = true ∧ jsonSafeList xs = true := by
            simpa [jsonSafe, jsonSafeList, Bool.and_eq_true] using hs
          have hsizes : fsize x + fsizeList xs + 1 ≤ k := by
            simp [fsize, fsizeList] at hv
            omega
          rw [show serC (.vArr (x :: xs)) ++ rest
              = '[' :: (joinComma (serCList (x :: xs)) ++ ']' :: rest) from by
            simp [serC]]
          rw [ pVal.eq_def]
          obtain ⟨c0, t0, hser, hc1, hc2⟩ := serC_head x hsx.1
          have hjh : (joinComma (serCList (x :: xs))).head? = some c0 := by
            cases xs with
            | nil => simp [serCList, joinComma, hser]
            | cons y ys => simp [serCList, joinComma, hser]
          have hlist := ihl (x :: xs) rest (by
              simpa [jsonSafeList, Bool.and_eq_true] using hsx)
            (by simp) (by simp [fsizeList]; omega) hnd
          simp [hjh, hc1, hlist]
      | vObj fs =>
        cases fs with
        | nil =>
          show pVal (k+1) ('\x7b' :: '\x7d' :: rest) = some (.vObj [], rest)
          rw [ pVal.eq_def]
          simp
        | cons f fs =>
          obtain ⟨kk, vv⟩ := f
          have hsx : jsonSafe vv = true ∧ jsonSafeFields fs = true := by
            have : jsonSafeFields ((kk, vv) :: fs) = true := by
              simp [jsonSafe, Bool.and_eq_true] at hs
              exact hs.2
            simpa [jsonSafeFields, Bool.and_eq_true] using this
          rw [show serC (.vObj ((kk, vv) :: fs)) ++ rest
              = '\x7b' :: (joinComma (serCFields ((kk, vv) :: fs)) ++ '\x7d' :: rest)
              from by simp [serC]]
          rw [ pVal.eq_def]
          have hjh : (joinComma (serCFields ((kk, vv) :: fs))).head? = some '"' := by
            cases fs with
            | nil => simp [serCFields, joinComma, quoteChars]
            | cons g gs => simp [serCFields, joinComma, quoteChars]
          have hfields := ihf ((kk, vv) :: fs) rest (by
              simp [jsonSafe, Bool.and_eq_true] at hs
              exact hs.2)
            (by simp) (by simp [fsize] at hv; omega) hnd
          simp [hjh, hfields]
      | vUndefined => simp [jsonSafe] at hs
      | vBigInt m => simp [jsonSafe] at hs
      | vOther t => simp [jsonSafe] at hs
    · cases xs with
      | nil => exact absurd rfl hne
      | cons x xs =>
        have hsx : jsonSafe x = true ∧ jsonSafeList xs = true := by
          simpa [jsonSafeList, Bool.and_eq_true] using hs
        cases xs with
        | nil =>
          rw [show joinComma (serCList [x]) = serC x from by simp [serCList, joinComma]]
          have h1 := ihv x (']' :: rest) hsx.1 (by simp [fsizeList] at hxs; omega)
            (nonDigitHead_cons ']' rest (by decide))
          rw [ pElems.eq_def]
          simp [h1]
        | cons y ys =>
          rw [show joinComma (serCList (x :: y :: ys)) ++ ']' :: rest
              = serC x ++ ',' :: (joinComma (serCList (y :: ys)) ++ ']' :: rest) from by
            simp [serCList, joinComma]]
          have h1 := ihv x (',' :: (joinComma (serCList (y :: ys)) ++ ']' :: rest)) hsx.1
            (by simp [fsizeList] at hxs ⊢; omega)
            (nonDigitHead_cons ',' _ (by decide))
          have h2 := ihl (y :: ys) rest hsx.2 (by simp)
            (by simp [fsizeList] at hxs ⊢; omega) hnd
          rw [ pElems.eq_def]
          simp [h1, h2]
    · cases fs with
      | nil => exact absurd rfl hne
      | cons f fs =>
        obtain ⟨kk, vv⟩ := f
        have hsx : jsonSafe vv = true ∧ jsonSafeFields fs = true := by
          simpa [jsonSafeFields, Bool.and_eq_true] using hs
        cases fs with
        | nil =>
          rw [show joinComma (serCFields [(kk, vv)]) ++ '\x7d' :: rest
              = '"' :: (escString kk.data
                  ++ '"' :: (':' :: (serC vv ++ '\x7d' :: rest))) from by
            simp [serCFields, joinComma, quoteChars]]
          have hps := pStrAux_esc kk.data (':' :: (serC vv ++ '\x7d' :: rest)) []
          simp at hps
          have h1 := ihv vv ('\x7d' :: rest) hsx.1 (by simp [fsizeFields] at hfs; omega)
            (nonDigitHead_cons '\x7d' rest (by decide))
          rw [ pFields.eq_def]
          simp [hps, h1]
        | cons g gs =>
          obtain ⟨kk2, vv2⟩ := g
          rw [show joinComma (serCFields ((kk, vv) :: (kk2, vv2) :: gs)) ++ '\x7d' :: rest
              = '"' :: (escString kk.data ++ '"' :: (':' :: (serC vv
                  ++ ',' :: (joinComma (serCFields ((kk2, vv2) :: gs))
                    ++ '\x7d' :: rest)))) from by
            simp [serCFields, joinComma, quoteChars]]
          have hps := pStrAux_esc kk.data
            (':' :: (serC vv ++ ',' :: (joinComma (serCFields ((kk2, vv2) :: gs))
              ++ '\x7d' :: rest))) []
          simp at hps
          have h1 := ihv vv (',' :: (joinComma (serCFields ((kk2, vv2) :: gs))
              ++ '\x7d' :: rest)) hsx.1 (by simp [fsizeFields] at hfs ⊢; omega)
            (nonDigitHead_cons ',' _ (by decide))
          have h2 := ihf ((kk2, vv2) :: gs) rest hsx.2 (by simp)
            (by simp [fsizeFields] at hfs ⊢; omega) hnd
          rw [ pFields.eq_def]
          simp [hps, h1, h2]

theorem jsonParse_serC (v : JSVal) (h : jsonSafe v = true) :
    jsonParse ((⟨serC v⟩ : String)) = some v := by
  unfold jsonParse
  have hb := (parse_ser_bound ((serC v).length + 1)).1 v [] h
    (by have := fsize_le_serC v h; omega) nonDigitHead_nil
  simp only [List.append_nil] at hb
  rw [show ((⟨serC v⟩ : String)).data = serC v from rfl, hb]

theorem stringifyJSON_safe (v : JSVal) (hs : jsonSafe v = true) :
    stringifyJSON v = .ok (some ((⟨serC v⟩ : String))) := by
  unfold stringifyJSON
  rw [(ser_agree_bound (fsize v)).1 v (Nat.le_refl _) hs]

theorem processValue_composite_json (v : JSVal) (hc : isComposite v = true)
    (hs : jsonSafe v = true) :
    processValue v true = .ok (.vStr ((⟨serC v⟩ : String))) := by
  cases v with
  | vArr xs =>
    rw [ processValue.eq_def]
    simp [stringifyJSON_safe _ hs]
  | vObj fs =>
    rw [ processValue.eq_def]
    simp [stringifyJSON_safe _ hs]
  | vUndefined => simp [isComposite] at hc
  | vNull => simp [isComposite] at hc
  | vBool b => simp [isComposite] at hc
  | vNum m => simp [isComposite] at hc
  | vBigInt m => simp [isComposite] at hc
  | vStr s => simp [isComposite] at hc
  | vOther t => simp [isComposite] at hc

theorem mapValuesFields_map (fs : JSObj) :
    mapValuesFields fs = fs.map (fun p => (p.1, processValueNoJson p.2)) := by
  induction fs with
  | nil => rfl
  | cons p fs ih =>
    obtain ⟨k, v⟩ := p
    simp [mapValuesFields, ih]

theorem mapValuesIdx_zipWith (xs : List JSVal) : ∀ i,
    mapValuesIdx i xs
      = List.zipWith (fun j x => (((⟨natRepr j⟩ : String)), processValueNoJson x))
          (List.range' i xs.length) xs := by
  induction xs with
  | nil => intro i; rfl
  | cons x xs ih =>
    intro i
    rw [mapValuesIdx, List.length_cons, List.range'_succ, List.zipWith_cons_cons, ih (i+1)]

theorem mapProcess_forall2 (xs : List JSVal) : ∀ ys, mapProcess xs = .ok ys →
    List.Forall₂ (fun x y => processValue x true = .ok y) xs ys := by
  induction xs with
  | nil =>
    intro ys h
    rw [mapProcess] at h
    cases h
    exact .nil
  | cons x xs ih =>
    intro ys h
    rw [mapProcess] at h
    cases hx : processValue x true with
    | error e => rw [hx] at h; cases h
    | ok v =>
      rw [hx] at h
      cases ht : mapProcess xs with
      | error e => rw [ht] at h; cases h
      | ok tl =>
        rw [ht] at h
        cases h
        exact .cons hx (ih tl ht)

theorem parse_named_branch (qs : String) (fs : JSObj) (force : Bool)
    (h1 : countPositional qs ≠ 1) (hne : scanNamed qs.data ≠ []) :
    parseQueryStringValues qs (.vObj fs) force
      = match bindNamed qs (countPositional qs) (scanNamed qs.data) fs force
          (scanNamed qs.data) with
        | .error e => .error e
        | .ok entries => .ok (.vObj (fromEntries entries)) := by
  rw [ parseQueryStringValues.eq_def]
  simp [h1, isArrayV, isPlainObjV, asObj, List.isEmpty_iff, hne]

theorem parse_multi_positional (qs : String) (xs : List JSVal) (force : Bool)
    (h1 : countPositional qs ≠ 1) (hpos : 0 < countPositional qs) :
    parseQueryStringValues qs (.vArr xs) force
      = match mapProcess xs with
        | .error _ => .error .typeError
        | .ok ys => .ok (.vArr ys) := by
  rw [ parseQueryStringValues.eq_def]
  simp [h1, hpos, isArrayV, asArr]

theorem oldKey_inj (a b : String) : ("old" ++ a) = ("old" ++ b) ↔ a = b := by
  constructor
  · intro h
    have hd := congrArg String.data h
    simp only [String.data_append] at hd
    exact String.ext (List.append_cancel_left hd)
  · intro h
    rw [h]

theorem objGet_find (o : JSObj) (kk : String) : kk ∈ objKeys o →
    o.find? (fun p => p.1 = kk) = some (kk, objGet o kk) := by
  induction o with
  | nil => intro hk; simp [objKeys] at hk
  | cons p o ih =>
    obtain ⟨k, v⟩ := p
    intro hk
    by_cases h : k = kk
    · subst h
      have hf : List.find? (fun p => p.1 = k) ((k, v) :: o) = some (k, v) := by
        simp [List.find?_cons]
      unfold objGet
      rw [hf]
    · have hk2 : kk ∈ objKeys o := by
        unfold objKeys at hk
        simp at hk
        rcases hk with h1 | h1
        · exact absurd h1.symm h
        · unfold objKeys
          simpa using h1
      have hf : List.find? (fun p => p.1 = kk) ((k, v) :: o)
          = List.find? (fun p => p.1 = kk) o := by
        simp [List.find?_cons, h]
      unfold objGet
      rw [hf, ih hk2]

theorem find?_none_keys (o : JSObj) (kk : String) (hk : ¬ kk ∈ objKeys o) :
    o.find? (fun p => p.1 = kk) = none := by
  rw [List.find?_eq_none]
  intro p hp hpk
  simp at hpk
  refine hk ?_
  unfold objKeys
  exact List.mem_map.mpr ⟨p, hp, hpk⟩

theorem find?_mapKeysOld (o : JSObj) (kk : String) :
    (mapKeysOld o).find? (fun q => q.1 = "old" ++ kk)
      = (o.find? (fun p => p.1 = kk)).map (fun p => ("old" ++ p.1, p.2)) := by
  unfold mapKeysOld
  have hpred : ((fun q => decide (q.1 = "old" ++ kk))
        ∘ (fun p : String × JSVal => ("old" ++ p.1, p.2)))
      = fun p => decide (p.1 = kk) := by
    funext p
    simp [Function.comp, oldKey_inj]
  rw [List.find?_map, hpred]

theorem find?_map_updater (p : JSObj) (src : JSObj) (kk : String) :
    (p.map (fun q =>
        match src.find? (fun r => r.1 = q.1) with
        | some r => (q.1, r.2)
        | none => q)).find? (fun q => q.1 = kk)
      = (p.find? (fun q => q.1 = kk)).map (fun q =>
          match src.find? (fun r => r.1 = q.1) with
          | some r => (q.1, r.2)
          | none => q) := by
  induction p with
  | nil => rfl
  | cons q p ih =>
    obtain ⟨k, v⟩ := q
    by_cases hk : k = kk
    · subst hk
      cases hs : src.find? (fun r => r.1 = k) with
      | none => simp [List.find?, hs]
      | some r => simp [List.find?, hs]
    · cases hs : src.find? (fun r => r.1 = k) with
      | none => simp [List.find?, hs, hk, ih]
      | some r => simp [List.find?, hs, hk, ih]

theorem find?_filter_excluded (src : JSObj) (keysp : List String) (kk : String)
    (hk : ¬ kk ∈ keysp) :
    (src.filter (fun q => !(decide (q.1 ∈ keysp)))).find? (fun q => q.1 = kk)
      = src.find? (fun q => q.1 = kk) := by
  induction src with
  | nil => rfl
  | cons q src ih =>
    obtain ⟨k, v⟩ := q
    by_cases hq : k ∈ keysp
    · have hne : ¬ (k = kk) := fun h => hk (h ▸ hq)
      have h1 : List.filter (fun q => !(decide (q.1 ∈ keysp))) ((k, v) :: src)
          = List.filter (fun q => !(decide (q.1 ∈ keysp))) src := by
        simp [List.filter_cons, hq]
      have h2 : List.find? (fun q => q.1 = kk) ((k, v) :: src)
          = List.find? (fun q => q.1 = kk) src := by
        simp [List.find?_cons, hne]
      rw [h1, h2, ih]
    · have h1 : List.filter (fun q => !(decide (q.1 ∈ keysp))) ((k, v) :: src)
          = (k, v) :: List.filter (fun q => !(decide (q.1 ∈ keysp))) src := by
        simp [List.filter_cons, hq]
      rw [h1]
      by_cases hkk : k = kk
      · subst hkk
        simp [List.find?_cons]
      · have h2 : List.find? (fun q => q.1 = kk)
            ((k, v) :: List.filter (fun q => !(decide (q.1 ∈ keysp))) src)
            = List.find? (fun q => q.1 = kk)
              (List.filter (fun q => !(decide (q.1 ∈ keysp))) src) := by
          simp [List.find?_cons, hkk]
        have h3 : List.find? (fun q => q.1 = kk) ((k, v) :: src)
            = List.find? (fun q => q.1 = kk) src := by
          simp [List.find?_cons, hkk]
        rw [h2, h3, ih]

theorem objGet_objAssign (p src : JSObj) (kk : String) :
    objGet (objAssign p src) kk
      = match src.find? (fun q => q.1 = kk) with
        | some q => q.2
        | none => objGet p kk := by
  unfold objAssign objGet
  rw [List.find?_append, find?_map_updater]
  cases hp : p.find? (fun q => q.1 = kk) with
  | some q0 =>
    have hq0 : q0.1 = kk := by
      have := List.find?_some hp
      simpa using this
    cases hs : src.find? (fun q => q.1 = kk) with
    | some r => simp [Option.map, hq0, hs]
    | none => simp [Option.map, hq0, hs]
  | none =>
    have hknp : ¬ kk ∈ objKeys p := by
      intro hmem
      rw [objGet_find p kk hmem] at hp
      cases hp
    simp only [Option.map_none', Option.none_orElse]
    rw [find?_filter_excluded src (objKeys p) kk hknp]
    cases hs : src.find? (fun q => q.1 = kk) with
    | some r => simp
    | none => simp

theorem objGet_assign_old (p : JSObj) (o : JSObj) (kk : String) (hk : kk ∈ objKeys o) :
    objGet (objAssign p (mapKeysOld o)) ("old" ++ kk) = objGet o kk := by
  rw [objGet_objAssign, find?_mapKeysOld, objGet_find o kk hk]
  simp

theorem bindNamed_missing (qs : String) (pc : Nat) (allN : List String) (fs : JSObj) :
    ∀ pre k0 post,
      (∀ k ∈ pre, (k.drop 1) ∈ objKeys fs) →
      (∀ k ∈ pre, ∃ w, processValue (objGet fs (k.drop 1)) true = .ok w) →
      ¬ ((k0.drop 1) ∈ objKeys fs) →
      bindNamed qs pc allN fs false (pre ++ k0 :: post)
        = .error (.missingParameter (k0.drop 1) qs pc allN (.vObj fs)) := by
  intro pre
  induction pre with
  | nil =>
    intro k0 post _ _ hmiss
    rw [List.nil_append, bindNamed]
    simp [hmiss]
  | cons k pre ih =>
    intro k0 post hpres hser hmiss
    have hk : (k.drop 1) ∈ objKeys fs := hpres k (by simp)
    obtain ⟨w, hw⟩ := hser k (by simp)
    rw [List.cons_append, bindNamed]
    simp [hk, hw,
      ih k0 post (fun x hx => hpres x (by simp [hx])) (fun x hx => hser x (by simp [hx]))
        hmiss]

theorem bindNamed_force (qs : String) (pc : Nat) (allN : List String) (fs : JSObj) :
    ∀ names,
      (∀ k ∈ names, (k.drop 1) ∈ objKeys fs
        → ∃ w, processValue (objGet fs (k.drop 1)) true = .ok w) →
      ∃ l, bindNamed qs pc allN fs true names = .ok l
        ∧ List.Forall₂ (fun (k : String) (p : String × JSVal) => p.1 = k.drop 1
            ∧ (¬ ((k.drop 1) ∈ objKeys fs) → p.2 = .vNull)
            ∧ (((k.drop 1) ∈ objKeys fs)
                → processValue (objGet fs (k.drop 1)) true = .ok p.2))
            names l := by
  intro names hser
  induction names with
  | nil => exact ⟨[], rfl, .nil⟩
  | cons k rest ih =>
    obtain ⟨l, hl, hf⟩ := ih (fun x hx => hser x (by simp [hx]))
    by_cases hk : (k.drop 1) ∈ objKeys fs
    · obtain ⟨w, hw⟩ := hser k (by simp) hk
      refine ⟨(k.drop 1, w) :: l, ?_, ?_⟩
      · rw [bindNamed]
        simp [hk, hw, hl]
      · exact .cons ⟨rfl, fun h => absurd hk h, fun _ => hw⟩ hf
    · refine ⟨(k.drop 1, .vNull) :: l, ?_, ?_⟩
      · rw [bindNamed]
        simp [hk, hl]
      · exact .cons ⟨rfl, fun _ => rfl, fun h => absurd h hk⟩ hf

theorem bindNamed_present (qs : String) (pc : Nat) (allN : List String) (fs : JSObj) :
    ∀ names (force : Bool),
      (∀ k ∈ names, (k.drop 1) ∈ objKeys fs) →
      (∀ k ∈ names, ∃ w, processValue (objGet fs (k.drop 1)) true = .ok w) →
      ∃ l, bindNamed qs pc allN fs force names = .ok l
        ∧ List.Forall₂ (fun (k : String) (p : String × JSVal) => p.1 = k.drop 1
            ∧ processValue (objGet fs (k.drop 1)) true = .ok p.2) names l := by
  intro names force hpres hser
  induction names with
  | nil => exact ⟨[], rfl, .nil⟩
  | cons k rest ih =>
    obtain ⟨l, hl, hf⟩ := ih (fun x hx => hpres x (by simp [hx]))
      (fun x hx => hser x (by simp [hx]))
    have hk : (k.drop 1) ∈ objKeys fs := hpres k (by simp)
    obtain ⟨w, hw⟩ := hser k (by simp)
    refine ⟨(k.drop 1, w) :: l, ?_, ?_⟩
    · rw [bindNamed]
      simp [hk, hw, hl]
    · exact .cons ⟨rfl, hw⟩ hf

/-! # Claims -/

/-- C9: normalizing the value `null` (as opposed to `undefined`) does not
yield `null`: `processValue` falls through to the `String(value)` branch
(src/index.ts line 41, since `null === undefined` is false, `typeof null`
is not in the bypassable list, and null is neither an array nor a plain
object) and yields the four-character string `"null"`, whatever the json
option. -/
theorem C9_processValue_null (json : Bool) :
    processValue .vNull json = .ok (.vStr "null")
    ∧ processValue .vNull json ≠ .ok .vNull
    ∧ "null".length = 4 := by
  refine ⟨rfl, ?_, rfl⟩
  intro h
  have h3 : (Except.ok (JSVal.vStr "null") : Except Unit JSVal) = .ok .vNull := h
  simp at h3

/-- C3 counterexample: a `query` call that acquired its connection
internally (no caller connection, release supported) and whose execute
rejects neither releases nor destroys the connection: lines 103-106 only
run after a successful `await conn.execute` (line 101), there is no
try/finally.  This refutes the claim that the connection is returned to the
pool on the failure path. -/
theorem C3_counterexample :
    (queryLifecycle false true false).released = false
    ∧ (queryLifecycle false true false).destroyed = false := ⟨rfl, rfl⟩

/-- C3 amended: an internally acquired connection is released (or destroyed
when release is unsupported) only on the success path of the underlying
execute; when the execute fails, the error propagates before the release
block and the connection is neither released nor destroyed; a
caller-supplied connection is never released or destroyed by `query` on any
path. -/
theorem C3_amended_release_discipline (releaseSupported : Bool) :
    ((queryLifecycle false releaseSupported true).released = releaseSupported
      ∧ (queryLifecycle false releaseSupported true).destroyed = !releaseSupported)
    ∧ ((queryLifecycle false releaseSupported false).released = false
      ∧ (queryLifecycle false releaseSupported false).destroyed = false)
    ∧ (∀ execSucceeds : Bool,
        (queryLifecycle true releaseSupported execSucceeds).released = false
        ∧ (queryLifecycle true releaseSupported execSucceeds).destroyed = false) := by
  cases releaseSupported <;>
    exact ⟨⟨rfl, rfl⟩, ⟨rfl, rfl⟩, fun e => by cases e <;> exact ⟨rfl, rfl⟩⟩

/-- C2 counterexample: a table whose metadata has no primary key and a
unique index (flag bit 4) on `email` only.  The claim says `del` keys its
WHERE clause on `email` alone; the code (lines 176-179) enumerates every
snapshot column — the metadata is never consulted by `del`. -/
theorem C2_counterexample :
    primaryKeyOf [⟨"email", 4⟩, ⟨"name", 0⟩] = none
    ∧ (4 : Nat).land 4 ≠ 0
    ∧ delStatement "users" [("email", .vStr "ann@example.net"), ("name", .vStr "Ann")]
      = ⟨"DELETE FROM `users` WHERE `email` = :email AND `name` = :name",
         [("email", .vStr "ann@example.net"), ("name", .vStr "Ann")]⟩
    ∧ (delStatement "users"
        [("email", .vStr "ann@example.net"), ("name", .vStr "Ann")]).queryString
      ≠ "DELETE FROM `users` WHERE `email` = :email" := by
  exact ⟨rfl, by decide, rfl, by decide⟩

/-- C2 amended: `del` builds its WHERE clause from every column of the row
snapshot, without consulting column metadata at all; `edit` keys its WHERE
clause on the primary key column when the metadata flags one, otherwise on
every pre-transform snapshot column.  The claimed unique-index middle tier
does not exist anywhere in the code. -/
theorem C2_amended_where_columns (table : String) (t : JSObj)
    (fields : List FieldMeta) (oldKeys : List String) :
    (delStatement table t).queryString
      = "DELETE FROM `" ++ table ++ "` WHERE "
        ++ String.intercalate " AND " ((objKeys t).map sqlAssignPair)
    ∧ (∀ pk, primaryKeyOf fields = some pk → editWhereCols fields oldKeys = [pk])
    ∧ (primaryKeyOf fields = none → editWhereCols fields oldKeys = oldKeys) := by
  refine ⟨rfl, ?_, ?_⟩
  · intro pk h
    unfold editWhereCols
    rw [h]
  · intro h
    unfold editWhereCols
    rw [h]

/-- C2 witness: on the unique-index table of the counterexample, the
amended description holds: the metadata has no primary key so `edit` falls
back to all snapshot columns, and `del` enumerates the snapshot columns. -/
theorem C2_witness :
    (delStatement "users" [("email", .vStr "a")]).queryString
      = "DELETE FROM `users` WHERE "
        ++ String.intercalate " AND "
          ((objKeys [("email", JSVal.vStr "a")]).map sqlAssignPair)
    ∧ editWhereCols [⟨"email", 4⟩, ⟨"name", 0⟩] ["email", "name"] = ["email", "name"] :=
  ⟨(C2_amended_where_columns "users" [("email", .vStr "a")]
      [⟨"email", 4⟩, ⟨"name", 0⟩] ["email", "name"]).1,
   (C2_amended_where_columns "users" [("email", .vStr "a")]
      [⟨"email", 4⟩, ⟨"name", 0⟩] ["email", "name"]).2.2 rfl⟩

/-- C4 (code bug): for a query with exactly one positional placeholder
(`SELECT ?`) and the payload `{a: 1}` — neither a sequence nor a bindable
scalar — line 76 returns the JSON text of the payload bare, not wrapped in
a single-element sequence, although the sibling branches (line 75 for
sequences and line 78 for scalars) both wrap, the claim and spec demand a
single-element sequence, and the driver expects an array of bind values for
positional placeholders. -/
theorem C4_single_placeholder_not_wrapped :
    parseQueryStringValues "SELECT ?" (.vObj [("a", .vNum 1)]) false
      = .ok (.vStr "\x7b\"a\":1\x7d")
    ∧ parseQueryStringValues "SELECT ?" (.vObj [("a", .vNum 1)]) false
      ≠ .ok (.vArr [.vStr "\x7b\"a\":1\x7d"]) := by
  refine ⟨rfl, ?_⟩
  intro h
  have h3 : (Except.ok (JSVal.vStr "\x7b\"a\":1\x7d") : Except QueryError JSVal)
      = .ok (.vArr [.vStr "\x7b\"a\":1\x7d"]) := h
  simp at h3

/-- C6 counterexample: normalizing the one-element sequence `[1]` with
asJSON off yields the keyed structure `{0: 1}` (lodash `mapValues` applied
to an array returns a plain object keyed by indices), not the sequence
`[1]` that the claim demands. -/
theorem C6_counterexample :
    processValue (.vArr [.vNum 1]) false = .ok (.vObj [("0", .vNum 1)])
    ∧ processValue (.vArr [.vNum 1]) false ≠ .ok (.vArr [.vNum 1]) := by
  refine ⟨rfl, ?_⟩
  intro h
  have h3 : (Except.ok (JSVal.vObj [("0", JSVal.vNum 1)]) : Except Unit JSVal)
      = .ok (.vArr [.vNum 1]) := h
  simp at h3

/-- C6 amended: with asJSON off, a keyed structure normalizes to a keyed
structure with the same keys in the same order and each value recursively
normalized; a sequence does not stay a sequence: `mapValues` turns it into
a keyed structure with one entry per element, keyed by the decimal element
indices in order, each value recursively normalized. -/
theorem C6_amended_mapvalues (fs : JSObj) (xs : List JSVal) :
    processValue (.vObj fs) false
      = .ok (.vObj (fs.map (fun p => (p.1, processValueNoJson p.2))))
    ∧ processValue (.vArr xs) false
      = .ok (.vObj (List.zipWith
          (fun j x => (((⟨natRepr j⟩ : String)), processValueNoJson x))
          (List.range xs.length) xs)) := by
  constructor
  · rw [show processValue (.vObj fs) false = .ok (.vObj (mapValuesFields fs)) from rfl,
      mapValuesFields_map]
  · rw [show processValue (.vArr xs) false = .ok (.vObj (mapValuesIdx 0 xs)) from rfl,
      mapValuesIdx_zipWith xs 0, List.range_eq_range']

/-- C1 counterexample: primary key `id`, snapshot `{id: 18, email: "a"}`,
and the transform `i => Object.assign(i, {id: 99})`, which mutates its
argument exactly as the repository's own call at line 194 does.  The
generated UPDATE binds `:oldid` to 99 — the post-transform value — not to
the pre-transform identity 18: the transform is not applied to a copy of
the snapshot, and the WHERE clause does not always bind pre-transform
identity values. -/
theorem C1_counterexample :
    editStatement "users" [⟨"id", 2⟩, ⟨"email", 0⟩]
        (fun o => objAssign o [("id", .vNum 99)])
        (fun o => objAssign o [("id", .vNum 99)])
        [("id", .vNum 18), ("email", .vStr "a")]
      = .ok ⟨"UPDATE `users` SET `email` = :email WHERE `id` = :oldid",
          [("email", .vStr "a"), ("oldid", .vNum 99), ("oldemail", .vStr "a")]⟩
    ∧ objGet [("email", .vStr "a"), ("oldid", .vNum 99), ("oldemail", .vStr "a")] "oldid"
      ≠ .vNum 18 := by
  refine ⟨rfl, ?_⟩
  intro h
  have h3 : JSVal.vNum 99 = JSVal.vNum 18 := h
  simp at h3

/-- C1 amended: `edit` hands the transform the row snapshot itself, not a
copy, and the selector built at line 163 reads the snapshot object after
the transform call: for every identity column the UPDATE binds `old<k>` to
the value the snapshot holds post-transform.  A transform that leaves its
argument untouched (`transformPost t = t`) therefore gets the pre-transform
identity values, while one that mutates identity columns of its argument
changes which row the UPDATE addresses. -/
theorem C1_amended_where_binds_post_snapshot (table : String)
    (fields : List FieldMeta) (transformRet transformPost : JSObj → JSObj) (t : JSObj)
    (st : Statement)
    (h : editStatement table fields transformRet transformPost t = .ok st)
    (kk : String) (hk : kk ∈ objKeys (transformPost t)) :
    objGet st.values ("old" ++ kk) = objGet (transformPost t) kk := by
  unfold editStatement at h
  dsimp only [] at h
  cases hp : processEntries (transformRet t)
      (editSetCols fields (objKeys (transformRet t))) with
  | error e => rw [hp] at h; cases h
  | ok entries =>
    rw [hp] at h
    cases h
    exact objGet_assign_old _ _ kk hk

/-- C1 witness: with a non-mutating transform the bound `oldid` value is the
pre-transform identity value of the snapshot. -/
theorem C1_witness :
    objGet (objAssign [("email", JSVal.vStr "a")]
        (mapKeysOld [("id", JSVal.vNum 18), ("email", JSVal.vStr "a")])) ("old" ++ "id")
      = objGet [("id", JSVal.vNum 18), ("email", JSVal.vStr "a")] "id" :=
  C1_amended_where_binds_post_snapshot "users" [⟨"id", 2⟩, ⟨"email", 0⟩]
    (fun o => o) (fun o => o) [("id", .vNum 18), ("email", .vStr "a")]
    ⟨"UPDATE `users` SET `email` = :email WHERE `id` = :oldid",
      objAssign [("email", JSVal.vStr "a")]
        (mapKeysOld [("id", JSVal.vNum 18), ("email", JSVal.vStr "a")])⟩
    rfl "id" (by decide)

/-- C7 counterexample: the composite `[undefined]` serializes to the text
`[null]`, which parses back to `[null]`, and `[null]` is not structurally
equal to `[undefined]` — the claimed JSON round trip fails on composites
holding undefined. -/
theorem C7_counterexample :
    processValue (.vArr [.vUndefined]) true = .ok (.vStr "[null]")
    ∧ jsonParse "[null]" = some (.vArr [.vNull])
    ∧ JSVal.vArr [.vNull] ≠ JSVal.vArr [.vUndefined] := by
  refine ⟨rfl, rfl, ?_⟩
  intro h
  simp at h

/-- C7 amended: normalizing undefined always yields null; and every
JSON-safe composite — a sequence or keyed structure built only from null,
booleans, numbers, strings and nested such composites with duplicate-free
object keys (so no undefined, bigint or host objects inside) — normalizes
with asJSON on to a JSON text that parses back to a structurally equal
value. -/
theorem C7_amended_roundtrip :
    (∀ json : Bool, processValue .vUndefined json = .ok .vNull)
    ∧ ∀ v, isComposite v = true → jsonSafe v = true →
        ∃ s, processValue v true = .ok (.vStr s) ∧ jsonParse s = some v := by
  refine ⟨fun _ => rfl, fun v hc hs => ?_⟩
  exact ⟨((⟨serC v⟩ : String)), processValue_composite_json v hc hs, jsonParse_serC v hs⟩

/-- C7 witness: the round trip at the concrete composite `{a: 1}`. -/
theorem C7_witness :
    isComposite (JSVal.vObj [("a", .vNum 1)]) = true
    ∧ jsonSafe (JSVal.vObj [("a", .vNum 1)]) = true
    ∧ ∃ s, processValue (.vObj [("a", .vNum 1)]) true = .ok (.vStr s)
        ∧ jsonParse s = some (.vObj [("a", .vNum 1)]) :=
  ⟨rfl, rfl, C7_amended_roundtrip.2 (.vObj [("a", .vNum 1)]) rfl rfl⟩

/-- C8 counterexample: two positional placeholders and the sequence
`[1, [2n]]` whose second element is a composite holding a bigint:
`JSON.stringify` throws, so reconciliation raises a TypeError instead of
returning a sequence — the claim fails as a universal statement. -/
theorem C8_counterexample :
    countPositional "SELECT ?, ?" = 2
    ∧ parseQueryStringValues "SELECT ?, ?" (.vArr [.vNum 1, .vArr [.vBigInt 2]]) false
      = .error .typeError := ⟨rfl, rfl⟩

/-- C8 amended: for more than one positional placeholder and a sequence
payload, provided every element normalizes without error (no bigint nested
inside a composite element), reconciliation returns a sequence of the same
length and order with every element normalized, composites serialized to
JSON text. -/
theorem C8_amended_multi_positional (qs : String) (xs ys : List JSVal) (force : Bool)
    (hc : 1 < countPositional qs) (hm : mapProcess xs = .ok ys) :
    parseQueryStringValues qs (.vArr xs) force = .ok (.vArr ys)
    ∧ ys.length = xs.length
    ∧ List.Forall₂ (fun x y => processValue x true = .ok y) xs ys := by
  have hf2 := mapProcess_forall2 xs ys hm
  refine ⟨?_, (List.Forall₂.length_eq hf2).symm, hf2⟩
  rw [parse_multi_positional qs xs force (by omega) (by omega), hm]

/-- C8 witness: the spec §8 example — two placeholders, values `[1, {a: 1}]`
reconcile to `[1, "JSON text of the object"]`. -/
theorem C8_witness :
    1 < countPositional "SELECT ?, ?"
    ∧ parseQueryStringValues "SELECT ?, ?"
        (.vArr [.vNum 1, .vObj [("a", .vNum 1)]]) false
      = .ok (.vArr [.vNum 1, .vStr "\x7b\"a\":1\x7d"])
    ∧ [JSVal.vNum 1, JSVal.vStr "\x7b\"a\":1\x7d"].length
      = [JSVal.vNum 1, JSVal.vObj [("a", .vNum 1)]].length :=
  ⟨by decide,
   (C8_amended_multi_positional "SELECT ?, ?" [.vNum 1, .vObj [("a", .vNum 1)]]
      [.vNum 1, .vStr "\x7b\"a\":1\x7d"] false (by decide) rfl).1,
   (C8_amended_multi_positional "SELECT ?, ?" [.vNum 1, .vObj [("a", .vNum 1)]]
      [.vNum 1, .vStr "\x7b\"a\":1\x7d"] false (by decide) rfl).2.1.symm ▸ rfl⟩

/-- C5 counterexample: the query carries one positional placeholder and the
named placeholder `:id`; the payload is an empty object, so `id` is absent
and force is off.  The claim demands a MissingParameterError, but rule (a)
preempts the named branch — `placeholders.length === 1` at line 74 fires
before the named check at line 81 — and the call returns the JSON text of
the whole payload instead of failing. -/
theorem C5_counterexample :
    scanNamed "UPDATE t SET a = ? WHERE b = :id".data = [":id"]
    ∧ countPositional "UPDATE t SET a = ? WHERE b = :id" = 1
    ∧ parseQueryStringValues "UPDATE t SET a = ? WHERE b = :id" (.vObj []) false
      = .ok (.vStr "\x7b\x7d") := ⟨rfl, rfl, rfl⟩

/-- C5 amended: provided the positional-placeholder count is not exactly one
(otherwise the positional rule preempts the named branch) and every payload
value normalizes without error, for a query with at least one named
placeholder and a keyed-structure payload: without force, the first
detected name missing from the payload raises the missing-parameter error
carrying the query string, the positional count, the detected named
placeholders, and the original values; with force, every detected name is
bound — missing names to null, present names to their normalized values;
and when every name is present the binding succeeds for either force mode
with each name bound to its normalized value. -/
theorem C5_amended_named_binding (qs : String) (fs : JSObj)
    (h1 : countPositional qs ≠ 1) (hne : scanNamed qs.data ≠ [])
    (hser : ∀ p ∈ fs, ∃ w, processValue p.2 true = .ok w) :
    (∀ pre k0 post, scanNamed qs.data = pre ++ k0 :: post →
      (∀ k ∈ pre, (k.drop 1) ∈ objKeys fs) → ¬ ((k0.drop 1) ∈ objKeys fs) →
      parseQueryStringValues qs (.vObj fs) false
        = .error (.missingParameter (k0.drop 1) qs (countPositional qs)
            (scanNamed qs.data) (.vObj fs)))
    ∧ (∃ l, bindNamed qs (countPositional qs) (scanNamed qs.data) fs true
          (scanNamed qs.data) = .ok l
        ∧ parseQueryStringValues qs (.vObj fs) true = .ok (.vObj (fromEntries l))
        ∧ List.Forall₂ (fun (k : String) (p : String × JSVal) => p.1 = k.drop 1
            ∧ (¬ ((k.drop 1) ∈ objKeys fs) → p.2 = .vNull)
            ∧ (((k.drop 1) ∈ objKeys fs)
                → processValue (objGet fs (k.drop 1)) true = .ok p.2))
            (scanNamed qs.data) l)
    ∧ (∀ force : Bool, (∀ k ∈ scanNamed qs.data, (k.drop 1) ∈ objKeys fs) →
        ∃ l, bindNamed qs (countPositional qs) (scanNamed qs.data) fs force
            (scanNamed qs.data) = .ok l
          ∧ parseQueryStringValues qs (.vObj fs) force = .ok (.vObj (fromEntries l))
          ∧ List.Forall₂ (fun (k : String) (p : String × JSVal) => p.1 = k.drop 1
              ∧ processValue (objGet fs (k.drop 1)) true = .ok p.2)
              (scanNamed qs.data) l) := by
  have hserk : ∀ k : String, (k.drop 1) ∈ objKeys fs
      → ∃ w, processValue (objGet fs (k.drop 1)) true = .ok w := by
    intro k hk
    exact hser _ (List.mem_of_find?_eq_some (objGet_find fs _ hk))
  refine ⟨?_, ?_, ?_⟩
  · intro pre k0 post hsplit hpres hmiss
    rw [parse_named_branch qs fs false h1 hne]
    rw [show scanNamed qs.data = pre ++ k0 :: post from hsplit]
    rw [bindNamed_missing qs (countPositional qs) (pre ++ k0 :: post) fs pre k0 post
      hpres (fun k hk => hserk k (hpres k hk)) hmiss]
  · obtain ⟨l, hl, hf⟩ := bindNamed_force qs (countPositional qs) (scanNamed qs.data) fs
      (scanNamed qs.data) (fun k _ hk => hserk k hk)
    refine ⟨l, hl, ?_, hf⟩
    rw [parse_named_branch qs fs true h1 hne, hl]
  · intro force hpres
    obtain ⟨l, hl, hf⟩ := bindNamed_present qs (countPositional qs) (scanNamed qs.data)
      fs (scanNamed qs.data) force hpres (fun k hk => hserk k (hpres k hk))
    refine ⟨l, hl, ?_, hf⟩
    rw [parse_named_branch qs fs force h1 hne, hl]

/-- C5 witness: for the purely named query with placeholders `:a` and `:b`
and the payload `{a: 1}` missing `b`, the force-off call fails with the
missing-parameter error carrying the full context. -/
theorem C5_witness :
    parseQueryStringValues "SELECT * FROM t WHERE a = :a AND b = :b"
        (.vObj [("a", .vNum 1)]) false
      = .error (.missingParameter "b" "SELECT * FROM t WHERE a = :a AND b = :b" 0
          [":a", ":b"] (.vObj [("a", .vNum 1)])) :=
  (C5_amended_named_binding "SELECT * FROM t WHERE a = :a AND b = :b"
      [("a", .vNum 1)] (by decide) (by decide)
      (by
        intro p hp
        simp at hp
        rw [hp]
        exact ⟨.vNum 1, rfl⟩)).1
    [":a"] ":b" [] rfl (by decide) (by decide)

/-- C10: every column whose metadata flags mark it as a primary key (bit 2)
or unique index member (bit 4) is excluded from the SET columns of every
UPDATE `edit` builds — whatever identity the WHERE clause ends up using —
so `edit` never changes the stored value of such a column; and the UPDATE
text is assembled from exactly the surviving editable columns. -/
theorem C10_flagged_columns_not_in_set (fields : List FieldMeta) (f : FieldMeta)
    (hf : f ∈ fields) (hflag : f.flags.land 2 ≠ 0 ∨ f.flags.land 4 ≠ 0)
    (hnd : (fields.map FieldMeta.name).Nodup) :
    (∀ newKeys : List String, ¬ f.name ∈ editSetCols fields newKeys)
    ∧ (∀ (table : String) (transformRet transformPost : JSObj → JSObj) (t : JSObj)
        (st : Statement),
        editStatement table fields transformRet transformPost t = .ok st →
        ∃ whereStr, st.queryString
          = "UPDATE `" ++ table ++ "` SET "
            ++ String.intercalate ", "
              ((editSetCols fields (objKeys (transformRet t))).map sqlAssignPair)
            ++ " WHERE " ++ whereStr) := by
  constructor
  · intro newKeys hmem
    unfold editSetCols at hmem
    rw [List.mem_filter] at hmem
    have hed : f.name ∈ editableColumnsOf fields := by simpa using hmem.2
    unfold editableColumnsOf at hed
    rw [List.mem_map] at hed
    obtain ⟨g, hg, hgname⟩ := hed
    rw [List.mem_filter] at hg
    have hclean : g.flags.land 2 + g.flags.land 4 = 0 := by simpa using hg.2
    have hfg : g = f := List.inj_on_of_nodup_map hnd hg.1 hf hgname
    rw [hfg] at hclean
    omega
  · intro table transformRet transformPost t st h
    unfold editStatement at h
    dsimp only [] at h
    cases hp : processEntries (transformRet t)
        (editSetCols fields (objKeys (transformRet t))) with
    | error e => rw [hp] at h; cases h
    | ok entries =>
      rw [hp] at h
      cases h
      exact ⟨_, rfl⟩

/-- C10 witness: with primary-key column `id` (flag 2) and plain column
`email`, the transform result keys `id` and `email` survive only as
`email` in the SET columns: `id` is excluded. -/
theorem C10_witness :
    ¬ "id" ∈ editSetCols [⟨"id", 2⟩, ⟨"email", 0⟩] ["id", "email"] :=
  (C10_flagged_columns_not_in_set [⟨"id", 2⟩, ⟨"email", 0⟩] ⟨"id", 2⟩
      (List.mem_cons_self _ _) (by left; decide) (by decide)).1 ["id", "email"]
